import Mathlib

/-
Verification of the event-to-record translation pipeline of external-mdns
(source/traefik_ingressroute.go): the rule-expression tree walk
(extractHosts), record assembly (buildRecords), the lifecycle event
handlers (onAdd, onDelete, onUpdate), and the construction-time IP
snapshot (NewTraefikIngressRouteWatcher, getDstIPAddr).

Modelling conventions:
- Go machine state that matters to the claims is made explicit.  The
  outbound channel becomes the ordered list of records a handler sends;
  a run-time panic (the unguarded slice index in extractHosts) becomes
  the value none in an Option layer; a Go (value, error) pair becomes
  Except.
- External collaborators (the Traefik rule parser, the go-tld host
  splitter, net.IP rendering and parsing) are parameters of the
  embedding, bundled in the Env structure, so every theorem about the
  repository code is quantified over their behavior.  Concrete stand-ins
  for them (parseModel, tldParseModel, ...) are supplied only to
  instantiate theorems at concrete inputs.
-/

namespace ExternalMDNS

/-- Expression tree of the Traefik rules library (rules.Tree): nullable
left/right children, a negation flag, a matcher name and the argument
list of the clause.  A nil Go pointer is Option.none. -/
inductive Tree where
  | mk (RuleLeft : Option Tree) (RuleRight : Option Tree)
       (Not : Bool) (Matcher : String) (Value : List String)
deriving Repr

mutual

/-- extractHosts from traefik_ingressroute.go.  Result layers:
none models the Go panic on the unguarded index tree.Value[0];
some (Except.error e) models a returned non-nil error;
some (Except.ok hosts) models a successful return.  The Go code returns
its partial host list alongside a non-nil error, but every caller
discards the list when the error is non-nil, so Except captures the
observable behavior. -/
def extractHosts (t : Tree) : Option (Except String (List String)) :=
  match t with
  | .mk l r neg matcher value =>
    match extractHostsChild l with
    | none => none
    | some (.error e) => some (.error e)
    | some (.ok hl) =>
      match extractHostsChild r with
      | none => none
      | some (.error e) => some (.error e)
      | some (.ok hr) =>
        let hosts := hl ++ hr
        if neg then some (.ok hosts)
        else if matcher = "Host" then
          match value with
          | v :: _ => some (.ok (hosts ++ [v]))
          | [] => none
        else if matcher = "HostRegexp" then
          some (.error "HostRegexp not supported")
        else
          some (.ok hosts)

/-- The two guarded recursive calls of extractHosts: a nil child is
skipped (contributes no hosts), a non-nil child is recursed into. -/
def extractHostsChild (o : Option Tree) : Option (Except String (List String)) :=
  match o with
  | none => some (.ok [])
  | some t => extractHosts t

end

mutual

/-- Precondition under which the unguarded index tree.Value[0] in
extractHosts is safe: every non-negated node with Matcher Host has a
non-empty argument list. -/
def hostArgsOk (t : Tree) : Bool :=
  match t with
  | .mk l r neg matcher value =>
    hostArgsOkChild l && hostArgsOkChild r &&
      (if neg = false ∧ matcher = "Host" then !value.isEmpty else true)

/-- hostArgsOk lifted to a nullable child. -/
def hostArgsOkChild (o : Option Tree) : Bool :=
  match o with
  | none => true
  | some t => hostArgsOk t

end

mutual

/-- Whether the tree contains a non-negated node with Matcher
HostRegexp, the exact condition on which extractHosts raises its
error. -/
def containsNonNegHostRegexp (t : Tree) : Bool :=
  match t with
  | .mk l r neg matcher _ =>
    containsNonNegHostRegexpChild l || containsNonNegHostRegexpChild r ||
      (if neg = false ∧ matcher = "HostRegexp" then true else false)

/-- containsNonNegHostRegexp lifted to a nullable child. -/
def containsNonNegHostRegexpChild (o : Option Tree) : Bool :=
  match o with
  | none => false
  | some t => containsNonNegHostRegexp t

end

mutual

/-- Whether the tree contains any node with Matcher HostRegexp,
negated or not. -/
def containsHostRegexp (t : Tree) : Bool :=
  match t with
  | .mk l r _ matcher _ =>
    containsHostRegexpChild l || containsHostRegexpChild r ||
      (if matcher = "HostRegexp" then true else false)

/-- containsHostRegexp lifted to a nullable child. -/
def containsHostRegexpChild (o : Option Tree) : Bool :=
  match o with
  | none => false
  | some t => containsHostRegexp t

end

/-- True exactly when an extractHosts result is a returned error
(an ExtractionError), as opposed to success or a panic. -/
def isExtractError : Option (Except String (List String)) → Bool
  | some (.error _) => true
  | _ => false

/-- Action constants of the resource package.  Modelled from the spec:
the resource package itself is outside the provided sources; per §3 and
§6 the Action field ranges over Added, Deleted and the conceptual
Updated, pairwise distinct. -/
inductive Action where
  | Added
  | Deleted
  | Updated
deriving Repr, DecidableEq

/-- resource.Resource, the record forwarded on the outbound channel.
Modelled from the spec §3: the resource package is outside the provided
sources; the fields are exactly those buildRecords assigns. -/
structure Resource where
  SourceType : String
  Action : Action
  Name : String
  Namespace : String
  IPs : List String
deriving Repr, DecidableEq

/-- Result of the external go-tld parse of a host: the subdomain and
domain portions the code reads back. -/
structure TldHost where
  Subdomain : String
  Domain : String
deriving Repr, DecidableEq

/-- One Route entry of an IngressRoute spec, carrying its rule
expression string. -/
structure Route where
  Match : String
deriving Repr, DecidableEq

/-- The Spec field of an IngressRoute: the ordered Route entries. -/
structure IngressRouteSpec where
  Routes : List Route
deriving Repr, DecidableEq

/-- A Traefik IngressRoute object as read by buildRecords: its
namespace and its route entries. -/
structure IngressRoute where
  Namespace : String
  Spec : IngressRouteSpec
deriving Repr, DecidableEq

/-- The dynamic argument of the event handlers: the Go interface value
either is an IngressRoute (the type assertion succeeds) or is anything
else (the assertion fails). -/
inductive WatchedObject where
  | ingressRoute (ingress : IngressRoute)
  | other
deriving Repr, DecidableEq

/-- The fields of a cluster Service object that getDstIPAddr reads:
the app.kubernetes.io/name label, the service type, and the
load-balancer ingress IP strings. -/
structure Service where
  nameLabel : String
  specType : String
  lbIngressIPs : List String
deriving Repr, DecidableEq

/-- A net.IP value: the byte slice underlying the Go type.  A
zero-length list models a zero-length (nil) net.IP. -/
def NetIP : Type := List Nat

/-- The external collaborators of the pipeline, as functions:
the Traefik rule parser (covering both rules.NewParser + Parse and the
TreeBuilder assertion: any failure on that path yields Except.error and
makes buildRecords abort the same way), the go-tld host splitter, and
net.IP rendering and parsing. -/
structure Env where
  parse : String → Except String Tree
  tldParse : String → Except String TldHost
  ipToString : List Nat → String
  parseIP : String → Option (List Nat)

/-- TraefikIngressRouteSource: the watcher state the handlers read.
The notification channel and shared informer are modelled by the
emitted record lists and the event stream. -/
structure TraefikIngressRouteSource where
  namespace_ : String
  dstIPAddr : List (List Nat)
deriving Repr, DecidableEq

/-- What one handler invocation does to the outside world: the records
sent on the channel in order, whether the handler took an error branch
(logged a build failure), and whether it panicked (the Option layer of
extractHosts surfaced none). -/
structure HandlerResult where
  emitted : List Resource
  errored : Bool
  panicked : Bool
deriving Repr, DecidableEq

/-- One informer lifecycle event, dispatched to onAdd, onUpdate or
onDelete. -/
inductive Event where
  | add (obj : WatchedObject)
  | update (oldObj newObj : WatchedObject)
  | delete (obj : WatchedObject)
deriving Repr, DecidableEq

/-- The fixed matcher vocabulary handed to rules.NewParser. -/
def matchers : List String :=
  ["ClientIP", "Method", "Host", "HostRegexp", "Path", "PathRegexp",
   "PathPrefix", "Header", "Headers", "HeaderRegexp", "Query", "QueryRegexp"]

/-- strings.HasSuffix from the Go standard library: case-sensitive
exact suffix test on the raw characters. -/
def hasSuffix (s suffix : String) : Bool :=
  List.isSuffixOf suffix.data s.data

/-- The ipAddrs slice buildRecords assembles from s.dstIPAddr:
zero-length IPs are skipped, the rest are rendered in order. -/
def ipStrings (env : Env) (dstIPAddr : List (List Nat)) : List String :=
  (dstIPAddr.filter fun ip => ip.length ≠ 0).map env.ipToString

/-- The body of the per-host loop of buildRecords: hosts without the
literal ".local" suffix are skipped, the rest are run through the
go-tld parse of "http://" ++ host; a parse failure skips just that
host; otherwise the record is assembled with the canonical name. -/
def recordForHost (env : Env) (ingressNamespace : String) (ipAddrs : List String)
    (action : Action) (host : String) : Option Resource :=
  if hasSuffix host ".local" then
    match env.tldParse ("http://" ++ host) with
    | .error _ => none
    | .ok parsedHost =>
      let hostname :=
        if parsedHost.Subdomain ≠ "" then
          parsedHost.Subdomain ++ "." ++ parsedHost.Domain
        else
          parsedHost.Domain
      some { SourceType := "ingress", Action := action, Name := hostname,
             Namespace := ingressNamespace, IPs := ipAddrs }
  else
    none

/-- The loop of buildRecords over ingress.Spec.Routes: each entry is
parsed and its hosts extracted; a parse or extraction error aborts the
whole call with that error (records of earlier entries are dropped), a
panic in extractHosts aborts the whole call as a panic, and on success
the per-host records of all entries are concatenated in order. -/
def buildRoutes (env : Env) (ingressNamespace : String) (ipAddrs : List String)
    (action : Action) : List Route → Option (Except String (List Resource))
  | [] => some (.ok [])
  | route :: rest =>
    match env.parse route.Match with
    | .error e => some (.error e)
    | .ok tree =>
      match extractHosts tree with
      | none => none
      | some (.error e) => some (.error e)
      | some (.ok hosts) =>
        match buildRoutes env ingressNamespace ipAddrs action rest with
        | none => none
        | some (.error e) => some (.error e)
        | some (.ok records) =>
          some (.ok
            (hosts.filterMap (recordForHost env ingressNamespace ipAddrs action)
              ++ records))

/-- buildRecords from traefik_ingressroute.go: a failed type assertion
returns the empty record list with nil error; otherwise the ipAddrs
snapshot is rendered from s.dstIPAddr and the route entries are
processed.  rules.NewParser on the fixed matcher vocabulary is
deterministic and succeeds, so its error branch is not reachable and is
not modelled. -/
def buildRecords (env : Env) (s : TraefikIngressRouteSource)
    (obj : WatchedObject) (action : Action) :
    Option (Except String (List Resource)) :=
  match obj with
  | .other => some (.ok [])
  | .ingressRoute ingress =>
    buildRoutes env ingress.Namespace (ipStrings env s.dstIPAddr) action
      ingress.Spec.Routes

/-- onAdd: build with Action Added; on error log and return with
nothing sent; on success send every record in order. -/
def onAdd (env : Env) (s : TraefikIngressRouteSource) (obj : WatchedObject) :
    HandlerResult :=
  match buildRecords env s obj Action.Added with
  | none => { emitted := [], errored := false, panicked := true }
  | some (.error _) => { emitted := [], errored := true, panicked := false }
  | some (.ok records) => { emitted := records, errored := false, panicked := false }

/-- onDelete: identical pipeline with Action Deleted. -/
def onDelete (env : Env) (s : TraefikIngressRouteSource) (obj : WatchedObject) :
    HandlerResult :=
  match buildRecords env s obj Action.Deleted with
  | none => { emitted := [], errored := false, panicked := true }
  | some (.error _) => { emitted := [], errored := true, panicked := false }
  | some (.ok records) => { emitted := records, errored := false, panicked := false }

/-- onUpdate: build the old side with Action Updated (an error is only
logged, and the loop over the nil slice sends nothing), send every old
record re-stamped Deleted, then build the new side the same way and
send every new record re-stamped Added.  A panic on the old side sends
nothing; a panic on the new side leaves the already-sent Deleted
records on the channel. -/
def onUpdate (env : Env) (s : TraefikIngressRouteSource)
    (oldObj newObj : WatchedObject) : HandlerResult :=
  match buildRecords env s oldObj Action.Updated with
  | none => { emitted := [], errored := false, panicked := true }
  | some res1 =>
    let err1 := match res1 with | .error _ => true | .ok _ => false
    let oldResources := match res1 with | .error _ => [] | .ok records => records
    let dels := oldResources.map fun record => { record with Action := Action.Deleted }
    match buildRecords env s newObj Action.Updated with
    | none => { emitted := dels, errored := err1, panicked := true }
    | some res2 =>
      let err2 := match res2 with | .error _ => true | .ok _ => false
      let newResources := match res2 with | .error _ => [] | .ok records => records
      let adds := newResources.map fun record => { record with Action := Action.Added }
      { emitted := dels ++ adds, errored := err1 || err2, panicked := false }

/-- getDstIPAddr: over the cluster service listing in order, keep
services labelled app.kubernetes.io/name=traefik of type LoadBalancer,
and collect their load-balancer ingress IPs; an unparsable IP string is
logged and skipped individually. -/
def getDstIPAddr (env : Env) (services : List Service) : List (List Nat) :=
  services.flatMap fun service =>
    if service.nameLabel ≠ "traefik" then []
    else if service.specType ≠ "LoadBalancer" then []
    else service.lbIngressIPs.filterMap env.parseIP

/-- NewTraefikIngressRouteWatcher: the IP snapshot is resolved from the
cluster state exactly once, here, and stored in the watcher; the event
handlers are registered closed over that state. -/
def NewTraefikIngressRouteWatcher (env : Env) (services : List Service)
    (namespace_ : String) : TraefikIngressRouteSource :=
  { namespace_ := namespace_, dstIPAddr := getDstIPAddr env services }

/-- Informer dispatch: AddFunc, UpdateFunc and DeleteFunc of the
registered handler. -/
def handleEvent (env : Env) (s : TraefikIngressRouteSource) :
    Event → HandlerResult
  | .add obj => onAdd env s obj
  | .update oldObj newObj => onUpdate env s oldObj newObj
  | .delete obj => onDelete env s obj

/-- The full stream of records a sequence of lifecycle events makes the
watcher send, in order. -/
def processEvents (env : Env) (s : TraefikIngressRouteSource)
    (events : List Event) : List Resource :=
  events.flatMap fun event => (handleEvent env s event).emitted

/-- The record list a buildRecords result delivers to a handler loop:
the list on success, nothing on error or panic. -/
def okList : Option (Except String (List Resource)) → List Resource
  | some (.ok records) => records
  | _ => []

/-- Split a character list on the dot character; used by the concrete
stand-ins for the external host and IP parsers. -/
def splitOnDot : List Char → List (List Char)
  | [] => [[]]
  | c :: cs =>
    let rest := splitOnDot cs
    if c = '.' then [] :: rest
    else
      match rest with
      | [] => [[c]]
      | g :: gs => (c :: g) :: gs

/-- Join label character lists with dots into a string. -/
def joinDots (labels : List (List Char)) : String :=
  ⟨List.intercalate ['.'] labels⟩

/-- Strip a leading "http://" scheme from a URL given as characters. -/
def dropScheme : List Char → List Char
  | 'h' :: 't' :: 't' :: 'p' :: ':' :: '/' :: '/' :: rest => rest
  | cs => cs

/-- Concrete stand-in for the external go-tld parser, used only to
instantiate the parametric theorems.  Modelled from the spec §4.2: the
host is split into labels, the last label is the top-level label (the
.local pseudo-TLD), the one before it is the domain, the remaining
leading labels joined by dots are the subdomain; a host with fewer than
two labels fails to parse. -/
def tldParseModel (url : String) : Except String TldHost :=
  match (splitOnDot (dropScheme url.data)).reverse with
  | tldLabel :: domain :: subRev =>
    if tldLabel = [] ∨ domain = [] then .error "tld: failed to parse"
    else .ok { Subdomain := joinDots subRev.reverse, Domain := ⟨domain⟩ }
  | _ => .error "tld: failed to parse"

/-- Decimal digit value of a character, if it is a digit. -/
def charDigit (c : Char) : Option Nat :=
  if '0' ≤ c ∧ c ≤ '9' then some (c.toNat - '0'.toNat) else none

/-- Parse a non-empty all-digit character list as a Nat. -/
def digitsToNat (cs : List Char) : Option Nat :=
  match cs with
  | [] => none
  | _ =>
    cs.foldl (fun acc c =>
      match acc, charDigit c with
      | some n, some d => some (n * 10 + d)
      | _, _ => none) (some 0)

/-- Concrete stand-in for net.ParseIP, used only to instantiate the
parametric theorems: dotted-decimal IPv4 only, yielding the four bytes;
anything else is nil. -/
def parseIPModel (s : String) : Option (List Nat) :=
  match (splitOnDot s.data).mapM digitsToNat with
  | some bytes => if bytes.length = 4 ∧ bytes.all (· < 256) then some bytes else none
  | none => none

/-- Concrete stand-in for the String method of net.IP, used only to
instantiate the parametric theorems: dotted-decimal rendering of the
bytes. -/
def ipToStringModel (ip : List Nat) : String :=
  joinDots (ip.map fun b => (Nat.toDigits 10 b))

/-- A Host clause leaf as the Traefik parser produces it. -/
def hostClause (h : String) : Tree :=
  .mk none none false "Host" [h]

/-- Concrete stand-in for the Traefik rule parser (rules.NewParser with
the fixed vocabulary, Parse, and the TreeBuilder step), used only to
instantiate the parametric theorems: a lookup over the rule strings the
examples use, everything else a ParseError. -/
def parseModel (expr : String) : Except String Tree :=
  if expr = "Host(`a.local`)" then .ok (hostClause "a.local")
  else if expr = "Host(`b.local`)" then .ok (hostClause "b.local")
  else if expr = "Host(`svc.ns.local`)" then .ok (hostClause "svc.ns.local")
  else if expr = "Host(`example.com`)" then .ok (hostClause "example.com")
  else if expr = "HostRegexp(`.*\\.local`)" then
    .ok (.mk none none false "HostRegexp" [".*\\.local"])
  else .error "error while parsing rule"

/-- The concrete environment instantiating the external collaborators
for witnesses and counterexamples. -/
def envModel : Env :=
  { parse := parseModel, tldParse := tldParseModel,
    ipToString := ipToStringModel, parseIP := parseIPModel }

/-- A concrete watcher state with one non-empty destination IP. -/
def sourceTest : TraefikIngressRouteSource :=
  { namespace_ := "default", dstIPAddr := [[10, 0, 0, 1]] }

/-- A concrete route entry whose rule parses to Host("a.local"). -/
def routeA : Route := { Match := "Host(`a.local`)" }

/-- A concrete route entry whose rule parses to Host("b.local"). -/
def routeB : Route := { Match := "Host(`b.local`)" }

/-- A concrete route entry whose rule fails to parse. -/
def routeBad : Route := { Match := "BAD(" }

/-- A concrete route entry whose rule parses to a HostRegexp clause. -/
def routeRegexp : Route := { Match := "HostRegexp(`.*\\.local`)" }

/-- A concrete IngressRoute whose single rule is Host("a.local"). -/
def ingressA : IngressRoute :=
  { Namespace := "default", Spec := { Routes := [routeA] } }

/-- A concrete IngressRoute whose single rule is Host("b.local"). -/
def ingressB : IngressRoute :=
  { Namespace := "default", Spec := { Routes := [routeB] } }

/-- A concrete IngressRoute with a failing first entry and a healthy
sibling entry. -/
def ingressBadThenB : IngressRoute :=
  { Namespace := "default", Spec := { Routes := [routeBad, routeB] } }

/-- A concrete IngressRoute whose single rule is a HostRegexp clause. -/
def ingressRegexp : IngressRoute :=
  { Namespace := "default", Spec := { Routes := [routeRegexp] } }

/-- The watched object wrapping ingressA. -/
def objA : WatchedObject := .ingressRoute ingressA

/-- The watched object wrapping ingressB. -/
def objB : WatchedObject := .ingressRoute ingressB

/-- The watched object wrapping ingressBadThenB. -/
def objBadThenB : WatchedObject := .ingressRoute ingressBadThenB

/-- The watched object wrapping ingressRegexp. -/
def objRegexp : WatchedObject := .ingressRoute ingressRegexp

/-- A tree violating the hostArgsOk precondition: a non-negated Host
node with an empty argument list. -/
def emptyHostTree : Tree := .mk none none false "Host" []

/-- A non-negated HostRegexp clause, as the Traefik parser produces it
for routeRegexp. -/
def regexpTree : Tree := .mk none none false "HostRegexp" [".*\\.local"]

/-- A negated HostRegexp node with no children. -/
def negRegexpTree : Tree := .mk none none true "HostRegexp" [".*\\.local"]

/-- A tree whose root is a non-negated HostRegexp node but whose left
child is a non-negated Host node with no arguments: the left child is
visited first, so the unguarded index is reached before the HostRegexp
error can be raised. -/
def panicRegexpTree : Tree := .mk (some emptyHostTree) none false "HostRegexp" []

/-- A concrete cluster state with one matching LoadBalancer service
exposing two IPs, used to instantiate the snapshot theorem. -/
def servicesTest : List Service :=
  [{ nameLabel := "traefik", specType := "LoadBalancer",
     lbIngressIPs := ["10.0.0.1", "10.0.0.2"] }]

/-- Simultaneous induction over trees and nullable children, wrapping
the primitive recursor of the nested inductive. -/
theorem Tree.nestedInduction {P : Tree → Prop} {Q : Option Tree → Prop}
    (hmk : ∀ l r neg matcher value, Q l → Q r → P (Tree.mk l r neg matcher value))
    (hnone : Q none) (hsome : ∀ t, P t → Q (some t)) :
    (∀ t, P t) ∧ (∀ o, Q o) :=
  have hT : ∀ t, P t := fun t => @Tree.rec P Q hmk hnone (fun u ih => hsome u ih) t
  ⟨hT, fun o => match o with | none => hnone | some t => hsome t (hT t)⟩

/-- Under the hostArgsOk precondition the unguarded index of
extractHosts is never reached: the result is not the panic value. -/
theorem extractHosts_total :
    (∀ t, hostArgsOk t = true → extractHosts t ≠ none) ∧
    (∀ o, hostArgsOkChild o = true → extractHostsChild o ≠ none) := by
  refine Tree.nestedInduction ?_ ?_ ?_
  · intro l r neg matcher value ihl ihr h
    simp only [hostArgsOk, Bool.and_eq_true] at h
    obtain ⟨⟨hokl, hokr⟩, hval⟩ := h
    simp only [extractHosts]
    cases hcl : extractHostsChild l with
    | none => exact absurd hcl (ihl hokl)
    | some resl =>
      cases resl with
      | error e => simp
      | ok hostsl =>
        cases hcr : extractHostsChild r with
        | none => exact absurd hcr (ihr hokr)
        | some resr =>
          cases resr with
          | error e => simp
          | ok hostsr =>
            cases neg with
            | true => simp
            | false =>
              by_cases hm : matcher = "Host"
              · simp only [hm, if_true, eq_self_iff_true, true_and, if_pos] at hval ⊢
                cases value with
                | nil => simp at hval
                | cons v vs => simp
              · by_cases hm2 : matcher = "HostRegexp" <;> simp [hm, hm2]
  · intro _
    simp [extractHostsChild]
  · intro t ih h
    simp only [hostArgsOkChild] at h
    simp only [extractHostsChild]
    exact ih h

/-- The only error extractHosts ever returns is the HostRegexp one. -/
theorem extractHosts_error_msg :
    (∀ t e, extractHosts t = some (.error e) → e = "HostRegexp not supported") ∧
    (∀ o e, extractHostsChild o = some (.error e) → e = "HostRegexp not supported") := by
  refine Tree.nestedInduction ?_ ?_ ?_
  · intro l r neg matcher value ihl ihr e
    simp only [extractHosts]
    cases hcl : extractHostsChild l with
    | none => simp
    | some resl =>
      cases resl with
      | error e1 =>
        intro he
        simp only [Option.some.injEq, Except.error.injEq] at he
        exact he ▸ ihl e1 hcl
      | ok hostsl =>
        cases hcr : extractHostsChild r with
        | none => simp
        | some resr =>
          cases resr with
          | error e2 =>
            intro he
            simp only [Option.some.injEq, Except.error.injEq] at he
            exact he ▸ ihr e2 hcr
          | ok hostsr =>
            cases neg with
            | true => simp
            | false =>
              by_cases hm : matcher = "Host"
              · cases value <;> simp [hm]
              · by_cases hm2 : matcher = "HostRegexp" <;> simp [hm, hm2]
                intro he
                exact he.symm
  · intro e
    simp [extractHostsChild]
  · intro t ih e h
    simp only [extractHostsChild] at h
    exact ih e h

/-- Under the hostArgsOk precondition, extractHosts returns an error
exactly when the tree contains a non-negated HostRegexp node. -/
theorem extractHosts_error_iff :
    (∀ t, hostArgsOk t = true →
      (isExtractError (extractHosts t) = true ↔ containsNonNegHostRegexp t = true)) ∧
    (∀ o, hostArgsOkChild o = true →
      (isExtractError (extractHostsChild o) = true ↔
        containsNonNegHostRegexpChild o = true)) := by
  refine Tree.nestedInduction ?_ ?_ ?_
  · intro l r neg matcher value ihl ihr h
    simp only [hostArgsOk, Bool.and_eq_true] at h
    obtain ⟨⟨hokl, hokr⟩, hval⟩ := h
    simp only [extractHosts, containsNonNegHostRegexp, Bool.or_eq_true]
    cases hcl : extractHostsChild l with
    | none => exact absurd hcl (extractHosts_total.2 l hokl)
    | some resl =>
      cases resl with
      | error e1 =>
        have hl : containsNonNegHostRegexpChild l = true := by
          rw [← ihl hokl, hcl]
          rfl
        simp [isExtractError, hl]
      | ok hostsl =>
        have hl : containsNonNegHostRegexpChild l = false := by
          rw [← Bool.not_eq_true, ← ihl hokl, hcl]
          simp [isExtractError]
        cases hcr : extractHostsChild r with
        | none => exact absurd hcr (extractHosts_total.2 r hokr)
        | some resr =>
          cases resr with
          | error e2 =>
            have hr : containsNonNegHostRegexpChild r = true := by
              rw [← ihr hokr, hcr]
              rfl
            simp [isExtractError, hr]
          | ok hostsr =>
            have hr : containsNonNegHostRegexpChild r = false := by
              rw [← Bool.not_eq_true, ← ihr hokr, hcr]
              simp [isExtractError]
            cases neg with
            | true => simp [isExtractError, hl, hr]
            | false =>
              by_cases hm : matcher = "Host"
              · simp only [hm, if_true, eq_self_iff_true, true_and, if_pos] at hval
                cases value with
                | nil => simp at hval
                | cons v vs => simp [isExtractError, hl, hr, hm]
              · by_cases hm2 : matcher = "HostRegexp" <;>
                  simp [isExtractError, hl, hr, hm, hm2]
  · intro _
    simp [extractHostsChild, containsNonNegHostRegexpChild, isExtractError]
  · intro t ih h
    simp only [hostArgsOkChild] at h
    simp only [extractHostsChild, containsNonNegHostRegexpChild]
    exact ih h

/-- Every record recordForHost builds carries the fixed source type,
the requested action, the ingress namespace and the given IP list. -/
theorem recordForHost_fields {env : Env} {ns : String} {ips : List String}
    {a : Action} {host : String} {r : Resource}
    (h : recordForHost env ns ips a host = some r) :
    r.SourceType = "ingress" ∧ r.Action = a ∧ r.Namespace = ns ∧ r.IPs = ips := by
  unfold recordForHost at h
  by_cases hs : hasSuffix host ".local" = true
  · simp only [hs, if_true] at h
    cases hp : env.tldParse ("http://" ++ host) with
    | error e => rw [hp] at h; cases h
    | ok parsedHost =>
      rw [hp] at h
      simp only [Option.some.injEq] at h
      subst h
      exact ⟨rfl, rfl, rfl, rfl⟩
  · simp only [Bool.not_eq_true] at hs
    rw [hs] at h
    cases h

/-- A record list returned by a successful buildRoutes call consists of
records produced by recordForHost, and every route entry of a
successful call parsed and extracted without error or panic. -/
theorem buildRoutes_ok {env : Env} {ns : String} {ips : List String} {a : Action} :
    ∀ {routes : List Route} {l : List Resource},
      buildRoutes env ns ips a routes = some (.ok l) →
      (∀ r ∈ l, ∃ host, recordForHost env ns ips a host = some r) ∧
      (∀ route ∈ routes, ∃ t hosts,
        env.parse route.Match = .ok t ∧ extractHosts t = some (.ok hosts)) := by
  intro routes
  induction routes with
  | nil =>
    intro l h
    simp only [buildRoutes, Option.some.injEq, Except.ok.injEq] at h
    subst h
    exact ⟨by simp, by simp⟩
  | cons route rest ih =>
    intro l h
    simp only [buildRoutes] at h
    split at h
    next e hp => simp at h
    next tree hp =>
      split at h
      next hx => exact Option.noConfusion h
      next e hx => simp at h
      next hosts hx =>
        split at h
        next hrec => exact Option.noConfusion h
        next e hrec => simp at h
        next records hrec =>
          simp only [Option.some.injEq, Except.ok.injEq] at h
          subst h
          obtain ⟨ihmem, ihroutes⟩ := ih hrec
          constructor
          · intro r hr
            rcases List.mem_append.1 hr with hr1 | hr2
            · obtain ⟨host, _, hh⟩ := List.mem_filterMap.1 hr1
              exact ⟨host, hh⟩
            · exact ihmem r hr2
          · intro route2 hroute2
            rcases List.mem_cons.1 hroute2 with heq2 | hmem
            · exact heq2 ▸ ⟨tree, hosts, hp, hx⟩
            · exact ihroutes route2 hmem


/-- Membership in the delivered list of a build result means the build
succeeded and the record is in the returned list. -/
theorem okList_mem {res : Option (Except String (List Resource))} {r : Resource}
    (h : r ∈ okList res) : ∃ l, res = some (.ok l) ∧ r ∈ l := by
  match res with
  | some (.ok records) => exact ⟨records, rfl, h⟩
  | some (.error e) => simp [okList] at h
  | none => simp [okList] at h

/-- Every record of a successful buildRecords call carries the action
the call was made with, the snapshot IP strings of the watcher, and the
fixed source type. -/
theorem buildRecords_mem {env : Env} {s : TraefikIngressRouteSource}
    {obj : WatchedObject} {a : Action} {l : List Resource} {r : Resource}
    (h : buildRecords env s obj a = some (.ok l)) (hr : r ∈ l) :
    r.SourceType = "ingress" ∧ r.Action = a ∧ r.IPs = ipStrings env s.dstIPAddr := by
  match obj with
  | .other =>
    simp only [buildRecords, Option.some.injEq, Except.ok.injEq] at h
    subst h
    cases hr
  | .ingressRoute ingress =>
    simp only [buildRecords] at h
    obtain ⟨host, hh⟩ := (buildRoutes_ok h).1 r hr
    obtain ⟨h1, h2, _, h4⟩ := recordForHost_fields hh
    exact ⟨h1, h2, h4⟩

/-- onAdd sends exactly the successfully built records, with Action
Added requested from the build. -/
theorem onAdd_emitted (env : Env) (s : TraefikIngressRouteSource)
    (obj : WatchedObject) :
    (onAdd env s obj).emitted = okList (buildRecords env s obj Action.Added) := by
  unfold onAdd okList
  split <;> simp_all

/-- onDelete sends exactly the successfully built records, with Action
Deleted requested from the build. -/
theorem onDelete_emitted (env : Env) (s : TraefikIngressRouteSource)
    (obj : WatchedObject) :
    (onDelete env s obj).emitted = okList (buildRecords env s obj Action.Deleted) := by
  unfold onDelete okList
  split <;> simp_all

/-- Every record onUpdate sends is an old-side record re-stamped
Deleted or a new-side record re-stamped Added. -/
theorem onUpdate_mem {env : Env} {s : TraefikIngressRouteSource}
    {oldObj newObj : WatchedObject} {r : Resource}
    (h : r ∈ (onUpdate env s oldObj newObj).emitted) :
    (∃ r0, r0 ∈ okList (buildRecords env s oldObj Action.Updated) ∧
      r = { r0 with Action := Action.Deleted }) ∨
    (∃ r0, r0 ∈ okList (buildRecords env s newObj Action.Updated) ∧
      r = { r0 with Action := Action.Added }) := by
  unfold onUpdate at h
  cases h1 : buildRecords env s oldObj Action.Updated with
  | none => rw [h1] at h; cases h
  | some res1 =>
    rw [h1] at h
    simp only at h
    cases h2 : buildRecords env s newObj Action.Updated with
    | none =>
      rw [h2] at h
      simp only at h
      obtain ⟨r0, hr0, hre⟩ := List.mem_map.1 h
      exact Or.inl ⟨r0, by simp [okList, h1]; cases res1 <;> simp_all, hre.symm⟩
    | some res2 =>
      rw [h2] at h
      simp only at h
      rcases List.mem_append.1 h with hmem | hmem
      · obtain ⟨r0, hr0, hre⟩ := List.mem_map.1 hmem
        exact Or.inl ⟨r0, by simp [okList, h1]; cases res1 <;> simp_all, hre.symm⟩
      · obtain ⟨r0, hr0, hre⟩ := List.mem_map.1 hmem
        exact Or.inr ⟨r0, by simp [okList, h2]; cases res2 <;> simp_all, hre.symm⟩

/-- C8: extractHosts reads the first Host argument unguarded; under the
precondition that every non-negated Host node has at least one
argument, the panic branch (the Option layer's none) is unreachable,
and a concrete violating tree does reach it. -/
theorem claim8_host_index_safety :
    (∀ t, hostArgsOk t = true → extractHosts t ≠ none) ∧
    extractHosts emptyHostTree = none :=
  ⟨extractHosts_total.1, rfl⟩

/-- C8 witness: the precondition holds for a concrete Host clause and
the theorem applies to it. -/
theorem claim8_witness : extractHosts (hostClause "a.local") ≠ none :=
  claim8_host_index_safety.1 (hostClause "a.local") rfl

/-- C9 counterexample: a tree containing a non-negated HostRegexp node
on which extractHosts nevertheless returns no ExtractionError, because
the unguarded index on its empty-argument Host child is reached first:
the unconditional if-and-only-if fails. -/
theorem claim9_counterexample :
    containsNonNegHostRegexp panicRegexpTree = true ∧
    extractHosts panicRegexpTree = none ∧
    isExtractError (extractHosts panicRegexpTree) = false :=
  ⟨rfl, rfl, rfl⟩

/-- C9 amended: under the index precondition, extractHosts returns an
ExtractionError exactly when the tree contains a non-negated HostRegexp
node; and a negated node, its matcher and arguments notwithstanding,
returns the already-collected subtree results unchanged. -/
theorem claim9_error_iff_nonneg_hostregexp :
    (∀ t, hostArgsOk t = true →
      (isExtractError (extractHosts t) = true ↔
        containsNonNegHostRegexp t = true)) ∧
    (∀ (l r : Option Tree) (m : String) (v : List String)
       (hostsl hostsr : List String),
      extractHostsChild l = some (.ok hostsl) →
      extractHostsChild r = some (.ok hostsr) →
      extractHosts (Tree.mk l r true m v) = some (.ok (hostsl ++ hostsr))) := by
  refine ⟨extractHosts_error_iff.1, ?_⟩
  intro l r m v hostsl hostsr hcl hcr
  simp [extractHosts, hcl, hcr]

/-- C9 witness: the equivalence applied to a concrete negated
HostRegexp node, where both sides are false. -/
theorem claim9_witness :
    isExtractError (extractHosts negRegexpTree) = true ↔
      containsNonNegHostRegexp negRegexpTree = true :=
  claim9_error_iff_nonneg_hostregexp.1 negRegexpTree rfl

/-- C3 counterexample: a tree containing a HostRegexp node whose Not
flag is set extracts successfully, so extraction does not fail for
every tree containing a HostRegexp node. -/
theorem claim3_counterexample :
    containsHostRegexp negRegexpTree = true ∧
    extractHosts negRegexpTree = some (.ok []) ∧
    isExtractError (extractHosts negRegexpTree) = false :=
  ⟨rfl, rfl, rfl⟩

/-- C3 amended: for every tree satisfying the index precondition that
contains a non-negated HostRegexp node, extraction fails with the
ExtractionError "HostRegexp not supported", and for any route entry of
a watched object whose rule parses to such a tree, the add path emits
zero records. -/
theorem claim3_nonneg_hostregexp_fails (t : Tree)
    (hok : hostArgsOk t = true) (hc : containsNonNegHostRegexp t = true) :
    extractHosts t = some (.error "HostRegexp not supported") ∧
    (∀ (env : Env) (s : TraefikIngressRouteSource) (ingress : IngressRoute)
       (route : Route),
      route ∈ ingress.Spec.Routes → env.parse route.Match = .ok t →
      (onAdd env s (.ingressRoute ingress)).emitted = []) := by
  have herr : isExtractError (extractHosts t) = true :=
    (extractHosts_error_iff.1 t hok).2 hc
  have hex : ∃ e, extractHosts t = some (.error e) := by
    cases hx : extractHosts t with
    | none => rw [hx] at herr; simp [isExtractError] at herr
    | some res =>
      cases res with
      | error e => exact ⟨e, rfl⟩
      | ok hosts => rw [hx] at herr; simp [isExtractError] at herr
  obtain ⟨e, hx⟩ := hex
  have hmsg := extractHosts_error_msg.1 t e hx
  subst hmsg
  refine ⟨hx, ?_⟩
  intro env s ingress route hmem hp
  rw [onAdd_emitted]
  cases hb : buildRecords env s (.ingressRoute ingress) Action.Added with
  | none => rfl
  | some res =>
    cases res with
    | error e2 => rfl
    | ok l =>
      exfalso
      simp only [buildRecords] at hb
      obtain ⟨t2, hosts, hp2, hx2⟩ := (buildRoutes_ok hb).2 route hmem
      rw [hp] at hp2
      cases hp2
      rw [hx] at hx2
      cases hx2

/-- C3 witness: the amended theorem applied to the concrete non-negated
HostRegexp clause the example rule parses to, through the concrete
pipeline. -/
theorem claim3_witness :
    extractHosts regexpTree = some (.error "HostRegexp not supported") ∧
    (onAdd envModel sourceTest (.ingressRoute ingressRegexp)).emitted = [] := by
  have h := claim3_nonneg_hostregexp_fails regexpTree rfl rfl
  exact ⟨h.1, h.2 envModel sourceTest ingressRegexp routeRegexp (by simp [ingressRegexp]) rfl⟩

/-- C4: a host without the literal, case-sensitive ".local" suffix
yields no record. -/
theorem claim4_local_suffix_required (env : Env) (ns : String)
    (ips : List String) (a : Action) (host : String)
    (h : hasSuffix host ".local" = false) :
    recordForHost env ns ips a host = none := by
  unfold recordForHost
  simp [h]

/-- C4 witness: the theorem applied to the example host without the
suffix. -/
theorem claim4_witness :
    recordForHost envModel "default" ["10.0.0.1"] Action.Added "example.com" = none :=
  claim4_local_suffix_required envModel "default" ["10.0.0.1"] Action.Added
    "example.com" rfl

/-- C5: for a surviving ".local" host the record name is
subdomain "." domain when the subdomain portion is non-empty and domain
alone otherwise, and a host whose URL-style parse fails is skipped
individually, leaving the remaining hosts of the same entry intact. -/
theorem claim5_canonical_name (env : Env) (ns : String) (ips : List String)
    (a : Action) (host : String) (hs : hasSuffix host ".local" = true) :
    (∀ parsedHost, env.tldParse ("http://" ++ host) = .ok parsedHost →
      recordForHost env ns ips a host = some
        { SourceType := "ingress", Action := a,
          Name := if parsedHost.Subdomain ≠ "" then
              parsedHost.Subdomain ++ "." ++ parsedHost.Domain
            else parsedHost.Domain,
          Namespace := ns, IPs := ips }) ∧
    (∀ e, env.tldParse ("http://" ++ host) = .error e →
      recordForHost env ns ips a host = none ∧
      ∀ rest, List.filterMap (recordForHost env ns ips a) (host :: rest) =
        List.filterMap (recordForHost env ns ips a) rest) := by
  constructor
  · intro parsedHost hp
    unfold recordForHost
    simp [hs, hp]
  · intro e hp
    have hnone : recordForHost env ns ips a host = none := by
      unfold recordForHost
      simp [hs, hp]
    refine ⟨hnone, fun rest => ?_⟩
    rw [List.filterMap_cons, hnone]

/-- C5 witness: the example host svc.ns.local canonicalizes to the name
svc.ns through the concrete host splitter. -/
theorem claim5_witness :
    recordForHost envModel "default" ["10.0.0.1"] Action.Added "svc.ns.local" =
      some { SourceType := "ingress", Action := Action.Added, Name := "svc.ns",
             Namespace := "default", IPs := ["10.0.0.1"] } :=
  (claim5_canonical_name envModel "default" ["10.0.0.1"] Action.Added
    "svc.ns.local" rfl).1 { Subdomain := "svc", Domain := "ns" } rfl

/-- C1: the stream onUpdate sends decomposes as the old-side records
re-stamped Deleted followed by the new-side records re-stamped Added:
every old-state record carries Deleted, every new-state record carries
Added, and all Deleted records precede all Added ones. -/
theorem claim1_update_deletes_before_adds (env : Env)
    (s : TraefikIngressRouteSource) (oldObj newObj : WatchedObject) :
    ∃ dels adds : List Resource,
      (onUpdate env s oldObj newObj).emitted = dels ++ adds ∧
      dels = (okList (buildRecords env s oldObj Action.Updated)).map
        (fun record => { record with Action := Action.Deleted }) ∧
      (adds = [] ∨ adds = (okList (buildRecords env s newObj Action.Updated)).map
        (fun record => { record with Action := Action.Added })) ∧
      (∀ r ∈ dels, r.Action = Action.Deleted) ∧
      (∀ r ∈ adds, r.Action = Action.Added) := by
  unfold onUpdate
  cases h1 : buildRecords env s oldObj Action.Updated with
  | none =>
    exact ⟨[], [], by simp, by simp [okList], Or.inl rfl, by simp, by simp⟩
  | some res1 =>
    cases h2 : buildRecords env s newObj Action.Updated with
    | none =>
      cases res1 with
      | error e =>
        exact ⟨[], [], by simp, by simp [okList], Or.inl rfl, by simp, by simp⟩
      | ok oldRecords =>
        refine ⟨oldRecords.map (fun record => { record with Action := Action.Deleted }),
          [], by simp, by simp [okList], Or.inl rfl, ?_, by simp⟩
        intro r hr
        obtain ⟨r0, _, hre⟩ := List.mem_map.1 hr
        exact hre ▸ rfl
    | some res2 =>
      have hadds : ∀ newRecords,
          res2 = .ok newRecords →
          ∀ r ∈ newRecords.map (fun record => { record with Action := Action.Added }),
            r.Action = Action.Added := by
        intro newRecords _ r hr
        obtain ⟨r0, _, hre⟩ := List.mem_map.1 hr
        exact hre ▸ rfl
      cases res1 with
      | error e =>
        cases res2 with
        | error e2 =>
          exact ⟨[], [], by simp, by simp [okList], Or.inl rfl, by simp, by simp⟩
        | ok newRecords =>
          refine ⟨[], newRecords.map (fun record => { record with Action := Action.Added }),
            by simp, by simp [okList], Or.inr (by simp [okList]), by simp,
            hadds newRecords rfl⟩
      | ok oldRecords =>
        have hdels : ∀ r ∈ oldRecords.map
            (fun record => { record with Action := Action.Deleted }),
            r.Action = Action.Deleted := by
          intro r hr
          obtain ⟨r0, _, hre⟩ := List.mem_map.1 hr
          exact hre ▸ rfl
        cases res2 with
        | error e2 =>
          exact ⟨oldRecords.map (fun record => { record with Action := Action.Deleted }),
            [], by simp, by simp [okList], Or.inl rfl, hdels, by simp⟩
        | ok newRecords =>
          exact ⟨oldRecords.map (fun record => { record with Action := Action.Deleted }),
            newRecords.map (fun record => { record with Action := Action.Added }),
            by simp, by simp [okList], Or.inr (by simp [okList]), hdels,
            hadds newRecords rfl⟩

/-- C1 witness: the decomposition at a concrete update from
Host("a.local") to Host("b.local"). -/
theorem claim1_witness :
    ∃ dels adds : List Resource,
      (onUpdate envModel sourceTest objA objB).emitted = dels ++ adds ∧
      dels = (okList (buildRecords envModel sourceTest objA Action.Updated)).map
        (fun record => { record with Action := Action.Deleted }) ∧
      (adds = [] ∨
        adds = (okList (buildRecords envModel sourceTest objB Action.Updated)).map
          (fun record => { record with Action := Action.Added })) ∧
      (∀ r ∈ dels, r.Action = Action.Deleted) ∧
      (∀ r ∈ adds, r.Action = Action.Added) :=
  claim1_update_deletes_before_adds envModel sourceTest objA objB

/-- C2 counterexample: with one failing and one healthy Route entry in
the same object, onAdd emits nothing at all, although the healthy
sibling alone would yield a record: a ParseError does not abort only
the failing entry. -/
theorem claim2_counterexample :
    onAdd envModel sourceTest objBadThenB =
      { emitted := [], errored := true, panicked := false } ∧
    onAdd envModel sourceTest objB =
      { emitted := [{ SourceType := "ingress", Action := Action.Added, Name := "b",
                      Namespace := "default", IPs := ["10.0.0.1"] }],
        errored := false, panicked := false } :=
  ⟨rfl, rfl⟩

/-- C2 amended: a ParseError on any Route entry aborts record-building
for the whole object in the add and delete paths: buildRecords never
succeeds for that object (it returns an error, or the panic of an
earlier entry), and onAdd and onDelete emit zero records for all
entries of that object; within onUpdate a build failure on either side
does not block emission of records from the other side: on an old-side
failure the new-side records are still emitted re-stamped Added, and on
a new-side failure the old-side records are still emitted re-stamped
Deleted. -/
theorem claim2_parse_error_aborts_object :
    (∀ (env : Env) (s : TraefikIngressRouteSource) (ingress : IngressRoute)
       (route : Route) (e : String),
      route ∈ ingress.Spec.Routes →
      env.parse route.Match = .error e →
      (∀ a : Action,
        (∃ e2, buildRecords env s (.ingressRoute ingress) a = some (.error e2)) ∨
        buildRecords env s (.ingressRoute ingress) a = none) ∧
      (onAdd env s (.ingressRoute ingress)).emitted = [] ∧
      (onDelete env s (.ingressRoute ingress)).emitted = []) ∧
    (∀ (env : Env) (s : TraefikIngressRouteSource)
       (oldObj newObj : WatchedObject) (e : String),
      buildRecords env s oldObj Action.Updated = some (.error e) →
      (onUpdate env s oldObj newObj).emitted =
        (okList (buildRecords env s newObj Action.Updated)).map
          (fun record => { record with Action := Action.Added })) ∧
    (∀ (env : Env) (s : TraefikIngressRouteSource)
       (oldObj newObj : WatchedObject) (e : String),
      buildRecords env s newObj Action.Updated = some (.error e) →
      (onUpdate env s oldObj newObj).emitted =
        (okList (buildRecords env s oldObj Action.Updated)).map
          (fun record => { record with Action := Action.Deleted })) := by
  refine ⟨?_, ?_, ?_⟩
  · intro env s ingress route e hmem herr
    have notok : ∀ (a : Action) (l : List Resource),
        buildRecords env s (.ingressRoute ingress) a ≠ some (.ok l) := by
      intro a l hb
      simp only [buildRecords] at hb
      obtain ⟨t2, hosts, hp2, _⟩ := (buildRoutes_ok hb).2 route hmem
      rw [herr] at hp2
      cases hp2
    have key : ∀ a, okList (buildRecords env s (.ingressRoute ingress) a) = [] := by
      intro a
      cases hb : buildRecords env s (.ingressRoute ingress) a with
      | none => rfl
      | some res =>
        cases res with
        | error e2 => rfl
        | ok l => exact absurd hb (notok a l)
    refine ⟨?_, ?_, ?_⟩
    · intro a
      cases hb : buildRecords env s (.ingressRoute ingress) a with
      | none => exact Or.inr rfl
      | some res =>
        cases res with
        | error e2 => exact Or.inl ⟨e2, rfl⟩
        | ok l => exact absurd hb (notok a l)
    · rw [onAdd_emitted]
      exact key Action.Added
    · rw [onDelete_emitted]
      exact key Action.Deleted
  · intro env s oldObj newObj e h1
    unfold onUpdate
    rw [h1]
    cases h2 : buildRecords env s newObj Action.Updated with
    | none => simp [okList]
    | some res2 =>
      cases res2 with
      | error e2 => simp [okList]
      | ok newRecords => simp [okList]
  · intro env s oldObj newObj e h2
    unfold onUpdate
    cases h1 : buildRecords env s oldObj Action.Updated with
    | none => simp [okList]
    | some res1 =>
      rw [h2]
      cases res1 with
      | error e1 => simp [okList]
      | ok oldRecords => simp [okList]

/-- C2 witness: the amended theorem applied to the concrete two-entry
object whose first entry fails to parse, to a concrete update whose old
side fails to parse (the new-side Added record still emitted), and to a
concrete update whose new side fails to parse (the old-side Deleted
record still emitted). -/
theorem claim2_witness :
    ((∃ e2, buildRecords envModel sourceTest (.ingressRoute ingressBadThenB)
        Action.Added = some (.error e2)) ∨
      buildRecords envModel sourceTest (.ingressRoute ingressBadThenB)
        Action.Added = none) ∧
    (onAdd envModel sourceTest (.ingressRoute ingressBadThenB)).emitted = [] ∧
    (onUpdate envModel sourceTest objBadThenB objB).emitted =
      (okList (buildRecords envModel sourceTest objB Action.Updated)).map
        (fun record => { record with Action := Action.Added }) ∧
    (onUpdate envModel sourceTest objA objBadThenB).emitted =
      (okList (buildRecords envModel sourceTest objA Action.Updated)).map
        (fun record => { record with Action := Action.Deleted }) := by
  have h1 := claim2_parse_error_aborts_object.1 envModel sourceTest ingressBadThenB
    routeBad "error while parsing rule" (by simp [ingressBadThenB]) rfl
  refine ⟨h1.1 Action.Added, h1.2.1, ?_, ?_⟩
  · exact claim2_parse_error_aborts_object.2.1 envModel sourceTest objBadThenB objB
      "error while parsing rule" rfl
  · exact claim2_parse_error_aborts_object.2.2 envModel sourceTest objA objBadThenB
      "error while parsing rule" rfl

/-- Every record a dispatched handler sends carries the snapshot IP
strings of the watcher state and an Action of Added or Deleted. -/
theorem handleEvent_fields {env : Env} {s : TraefikIngressRouteSource}
    {ev : Event} {r : Resource} (h : r ∈ (handleEvent env s ev).emitted) :
    r.IPs = ipStrings env s.dstIPAddr ∧
    (r.Action = Action.Added ∨ r.Action = Action.Deleted) := by
  cases ev with
  | add obj =>
    rw [handleEvent, onAdd_emitted] at h
    obtain ⟨l, hb, hl⟩ := okList_mem h
    obtain ⟨_, h2, h3⟩ := buildRecords_mem hb hl
    exact ⟨h3, Or.inl h2⟩
  | delete obj =>
    rw [handleEvent, onDelete_emitted] at h
    obtain ⟨l, hb, hl⟩ := okList_mem h
    obtain ⟨_, h2, h3⟩ := buildRecords_mem hb hl
    exact ⟨h3, Or.inr h2⟩
  | update oldObj newObj =>
    rw [handleEvent] at h
    rcases onUpdate_mem h with ⟨r0, hr0, hre⟩ | ⟨r0, hr0, hre⟩ <;>
      obtain ⟨l, hb, hl⟩ := okList_mem hr0 <;>
      obtain ⟨_, _, h3⟩ := buildRecords_mem hb hl <;>
      subst hre
    · exact ⟨h3, Or.inr rfl⟩
    · exact ⟨h3, Or.inl rfl⟩

/-- C6: every record any sequence of lifecycle events makes a freshly
constructed watcher send carries exactly the IP strings rendered from
the snapshot getDstIPAddr resolved at construction; the handlers take
no cluster state, so later cluster changes cannot appear. -/
theorem claim6_ip_snapshot (env : Env) (services : List Service)
    (namespace_ : String) (events : List Event) (r : Resource)
    (h : r ∈ processEvents env
      (NewTraefikIngressRouteWatcher env services namespace_) events) :
    r.IPs = ipStrings env (getDstIPAddr env services) := by
  unfold processEvents at h
  obtain ⟨ev, _, hr⟩ := List.mem_flatMap.1 h
  exact (handleEvent_fields hr).1

/-- C6 witness: the snapshot equality at a concrete cluster with two
load-balancer IPs and one add event. -/
theorem claim6_witness :
    ({ SourceType := "ingress", Action := Action.Added, Name := "a",
       Namespace := "default", IPs := ["10.0.0.1", "10.0.0.2"] } : Resource).IPs =
      ipStrings envModel (getDstIPAddr envModel servicesTest) :=
  claim6_ip_snapshot envModel servicesTest "default" [Event.add objA] _ (by decide)

/-- C7: every record forwarded by onAdd, onDelete or onUpdate (the
three dispatch targets of handleEvent) carries Action Added or Deleted;
Updated is never transmitted. -/
theorem claim7_actions_added_or_deleted (env : Env)
    (s : TraefikIngressRouteSource) (ev : Event) (r : Resource)
    (h : r ∈ (handleEvent env s ev).emitted) :
    r.Action = Action.Added ∨ r.Action = Action.Deleted :=
  (handleEvent_fields h).2

/-- C7 witness: the theorem applied to a record of a concrete update
invocation. -/
theorem claim7_witness :
    ({ SourceType := "ingress", Action := Action.Deleted, Name := "a",
       Namespace := "default", IPs := ["10.0.0.1"] } : Resource).Action = Action.Added ∨
    ({ SourceType := "ingress", Action := Action.Deleted, Name := "a",
       Namespace := "default", IPs := ["10.0.0.1"] } : Resource).Action = Action.Deleted :=
  claim7_actions_added_or_deleted envModel sourceTest (Event.update objA objB) _
    (by decide)

/-- C10: an object that is not an IngressRoute builds the empty record
list with no error, so every handler emits nothing and reports no
failure for it. -/
theorem claim10_non_ingressroute_no_records (env : Env)
    (s : TraefikIngressRouteSource) (a : Action) :
    buildRecords env s WatchedObject.other a = some (.ok []) ∧
    onAdd env s WatchedObject.other =
      { emitted := [], errored := false, panicked := false } ∧
    onDelete env s WatchedObject.other =
      { emitted := [], errored := false, panicked := false } ∧
    onUpdate env s WatchedObject.other WatchedObject.other =
      { emitted := [], errored := false, panicked := false } :=
  ⟨rfl, rfl, rfl, rfl⟩

end ExternalMDNS
